import Mathlib

/-
Verification of the postfix-expression evaluator in src/postfix.cpp.

The program reads a postfix (RPN) arithmetic expression from a character
stream terminated by a semicolon.  A character-level tokenizer, next_tok,
produces lexemes one at a time (with single-character pushback), and the
main loop drives a value stack of doubles: numbers are pushed, operators
pop two values (n2 then n1), combine them and push the result.

Modelling decisions:
  - the input stream is a list of characters; one-character pushback is
    modelled by consing the character back onto the remaining input
    (exact, since the C++ code always puts back the character just read);
  - double values are modelled as exact rationals; every arithmetic fact
    proved below involves only values on which double arithmetic is exact
    or only the stack discipline, never rounding;
  - the verbose-mode prints of main (wcout/wcerr) are modelled as a list
    of trace events returned next to the outcome, so that the claim that
    tracing is presentational only can be stated;
  - calling back()/pop_back() on an empty std::list is undefined
    behaviour in C++; the final result pop of main performs no emptiness
    check, so the model marks that situation with the distinguished
    outcome emptyFinalPop;
  - the evaluation loop of main is driven with a fuel parameter so that
    every definition computes; the lemma evalLoop_fuel_enough below shows
    that the fuel used by evalProg can never run out, because every
    successful tokenizer call that does not report end of input consumes
    at least one character.
-/

/-- ASCII whitespace, modelling isspace in the default locale:
space, tab, newline, vertical tab, form feed, carriage return. -/
def isSpaceChar (c : Char) : Bool :=
  c = ' ' || c = '\t' || c = '\n' || c = Char.ofNat 11 || c = Char.ofNat 12 || c = '\r'

/-- ASCII decimal digit, modelling isdigit in the default locale. -/
def isDigitChar (c : Char) : Bool :=
  '0' ≤ c && c ≤ '9'

/-- Result of the character-reading loop of next_tok (lines 86-139):
the accumulated text str, the remaining stream contents after any
pushback, whether the terminator was consumed (got_eoi), whether a read
was attempted past the end of the stream (is.eof()), and the final value
of the is_valid_num flag. -/
structure TokOut where
  tok : List Char
  rest : List Char
  gotEoi : Bool
  hitEof : Bool
  validNum : Bool
  deriving DecidableEq, Repr

/-- The while loop of next_tok (src/postfix.cpp lines 86-139), one case
per character class, carrying the accumulated text and the got_radixpt
and is_valid_num flags. -/
def tokLoop : List Char → List Char → Bool → Bool → TokOut
  | [], str, _, v => ⟨str, [], false, true, v⟩
  | c :: cs, str, r, v =>
    if c = ';' then
      ⟨str, cs, true, false, v⟩
    else if c = '-' ∨ c = '+' then
      if str ≠ [] then ⟨str, c :: cs, false, false, v⟩
      else tokLoop cs (str ++ [c]) r v
    else if c = '.' then
      if r then ⟨str, c :: cs, false, false, v⟩
      else tokLoop cs ((if str = [] then str ++ ['0'] else str) ++ [c]) true false
    else if c = '*' ∨ c = '/' then
      if str ≠ [] then ⟨str, c :: cs, false, false, v⟩
      else ⟨str ++ [c], cs, false, false, v⟩
    else if isSpaceChar c then
      if str = [] then tokLoop cs str r v
      else ⟨str, c :: cs, false, false, v⟩
    else if ¬ isDigitChar c then
      ⟨str ++ [c], c :: cs, false, false, false⟩
    else tokLoop cs (str ++ [c]) r true

/-- Whether a lexeme text is exactly one of the four operator strings
(src/postfix.cpp lines 147-148). -/
def isOpStr (s : List Char) : Bool :=
  decide (s = ['-'] ∨ s = ['+'] ∨ s = ['*'] ∨ s = ['/'])

/-- What next_tok hands back to main on success: the lexeme text, the
remaining input, and the values of the IsOperator and EndOfInput globals
as set by this call.  (main only calls next_tok while EndOfInput is
false, so the prior value of the global is always false here.) -/
structure NTOut where
  tok : List Char
  rest : List Char
  isOp : Bool
  endOfInput : Bool
  deriving DecidableEq, Repr

/-- next_tok (src/postfix.cpp lines 78-155): run the reading loop on an
empty accumulator, classify the text, set EndOfInput on terminator or
end of stream, and throw InvalidExpression (the error carries the text)
when end of input has not been reached and the text is neither a valid
number nor an operator. -/
def next_tok (input : List Char) : Except (List Char) NTOut :=
  let o := tokLoop input [] false false
  let isOp := isOpStr o.tok
  let eoi := o.gotEoi || o.hitEof
  if eoi = false ∧ o.validNum = false ∧ isOp = false then .error o.tok
  else .ok ⟨o.tok, o.rest, isOp, eoi⟩

/-- Value of a digit character. -/
def digitVal (c : Char) : ℕ := c.toNat - ('0').toNat

/-- Decimal value of a digit string (integer part). -/
def decVal (ds : List Char) : ℕ :=
  ds.foldl (fun a c => 10 * a + digitVal c) 0

/-- Value of a digit string read as a fractional part (the digits after
the radix point). -/
def fracValQ (ds : List Char) : ℚ :=
  ds.foldr (fun c acc => ((digitVal c : ℚ) + acc) / 10) 0

/-- Models the conversion of a lexeme text to a double by wistringstream
extraction in main (src/postfix.cpp lines 182-188), with exact rational
semantics: optional sign, digits, optional radix point and digits, at
least one digit overall; none models the conversion-failure path. -/
def parseNum (s : List Char) : Option ℚ :=
  let sign : ℚ := if s.head? = some '-' then -1 else 1
  let s1 := if s.head? = some '-' ∨ s.head? = some '+' then s.tail else s
  let ip := s1.takeWhile (fun c => isDigitChar c)
  let r1 := s1.dropWhile (fun c => isDigitChar c)
  match r1 with
  | [] => if ip = [] then none else some (sign * (decVal ip : ℚ))
  | '.' :: r2 =>
    let fp := r2.takeWhile (fun c => isDigitChar c)
    let r3 := r2.dropWhile (fun c => isDigitChar c)
    if r3 ≠ [] then none
    else if ip = [] ∧ fp = [] then none
    else some (sign * ((decVal ip : ℚ) + fracValQ fp))
  | _ => none

/-- Errors thrown by the evaluation part of main: InvalidInput (stack
underflow), DivByZero carrying the dividend n1, and the defensive
numeric-conversion failure. -/
inductive EvalErr where
  | invalidInput : EvalErr
  | divByZero : ℚ → EvalErr
  | convFail : EvalErr
  deriving DecidableEq, Repr

/-- Overall outcome of a run of main: ok carries the printed result and
the values left on the stack after the final pop (nonempty leftover is
the warning case); invalidExpr is the InvalidExpression thrown by
next_tok, carrying the offending text; err is an evaluation error;
emptyFinalPop marks the final back()/pop_back() on an empty stack,
which is undefined behaviour in the C++ source (no check is performed
there); outOfFuel is the fuel sentinel, shown unreachable below. -/
inductive Outcome where
  | ok : ℚ → List ℚ → Outcome
  | invalidExpr : List Char → Outcome
  | err : EvalErr → Outcome
  | emptyFinalPop : Outcome
  | outOfFuel : Outcome
  deriving DecidableEq, Repr

/-- Trace events modelling the wcout/wcerr prints of main. -/
inductive Ev where
  | number : ℚ → Ev
  | operatorTok : List Char → Ev
  | stackEv : List ℚ → Ev
  | equation : ℚ → List Char → ℚ → ℚ → Ev
  | blank : Ev
  | resultLabel : Ev
  | printed : ℚ → Ev
  | warnLeftover : Ev
  deriving DecidableEq, Repr

/-- mem.back() followed by mem.pop_back() on the value stack, top of
stack first (the std::list in main pushes and pops at the back; the
model keeps the top at the head). none models the empty-stack case in
which main throws InvalidInput before touching the list. -/
def popBack (mem : List ℚ) : Option (ℚ × List ℚ) :=
  match mem with
  | [] => none
  | x :: xs => some (x, xs)

/-- The chain of result assignments of main (src/postfix.cpp lines
210-215): res starts at 0.0 and each matching operator overwrites it. -/
def opRes (tok : List Char) (n1 n2 : ℚ) : ℚ :=
  let r : ℚ := 0
  let r := if tok = ['+'] then n1 + n2 else r
  let r := if tok = ['-'] then n1 - n2 else r
  let r := if tok = ['*'] then n1 * n2 else r
  let r := if tok = ['/'] then n1 / n2 else r
  r

/-- Applying an operator to the two popped operands (src/postfix.cpp
lines 205-215): the division-by-zero check on n2 comes first and throws
DivByZero carrying n1; otherwise the combined result is returned. -/
def combineOp (tok : List Char) (n1 n2 : ℚ) : Except EvalErr ℚ :=
  if tok = ['/'] ∧ n2 = 0 then .error (.divByZero n1)
  else .ok (opRes tok n1 n2)

/-- One iteration body of the main loop (src/postfix.cpp lines 180-230):
skip when EndOfInput was reached with an empty lexeme; push a parsed
number; or pop n2 then n1 (throwing InvalidInput when the stack is
empty at either pop), combine and push.  Returns the new stack and the
trace events printed during the step, or the error with the events
printed before the throw. -/
def procTok (v : Bool) (tok : List Char) (isOp : Bool) (eoi : Bool) (mem : List ℚ) :
    Except (EvalErr × List Ev) (List ℚ × List Ev) :=
  if eoi ∧ tok = [] then .ok (mem, [])
  else if isOp then
    let tr0 := if v then [Ev.operatorTok tok, Ev.stackEv mem] else []
    match popBack mem with
    | none => .error (.invalidInput, tr0)
    | some (n2, m1) =>
      match popBack m1 with
      | none => .error (.invalidInput, tr0)
      | some (n1, m2) =>
        match combineOp tok n1 n2 with
        | .error e => .error (e, tr0 ++ (if v then [Ev.blank] else []))
        | .ok res =>
          .ok (res :: m2,
               tr0 ++ (if v then [Ev.equation n1 tok n2 res, Ev.stackEv (res :: m2)] else []))
  else
    match parseNum tok with
    | none => .error (.convFail, [])
    | some n => .ok (n :: mem, if v then [Ev.number n] else [])

/-- The final-result block of main (src/postfix.cpp lines 236-246):
print the top of the stack and pop it, then warn when values remain.
On an empty stack the back() call is undefined behaviour (the source
performs no check), marked emptyFinalPop. -/
def finalize (v : Bool) (mem : List ℚ) : Outcome × List Ev :=
  let tr0 := if v then [Ev.resultLabel] else []
  match mem with
  | [] => (Outcome.emptyFinalPop, tr0)
  | r :: rest =>
    let warn := if rest = [] then [] else Ev.warnLeftover :: (if v then [Ev.stackEv rest] else [])
    (Outcome.ok r rest, tr0 ++ Ev.printed r :: warn)

/-- The main loop of main (src/postfix.cpp lines 178-246): while
EndOfInput is false, get the next lexeme and process it; afterwards pop
the final result.  fuel bounds the number of iterations; the lemma
evalLoop_fuel_enough shows the bound used by evalProg is never hit. -/
def evalLoop (v : Bool) : ℕ → List Char → List ℚ → Outcome × List Ev
  | 0, _, _ => (Outcome.outOfFuel, [])
  | fuel + 1, input, mem =>
    match next_tok input with
    | .error s => (Outcome.invalidExpr s, [])
    | .ok o =>
      match procTok v o.tok o.isOp o.endOfInput mem with
      | .error (e, tr) => (Outcome.err e, tr)
      | .ok (mem', tr) =>
        if o.endOfInput then
          ((finalize v mem').1, tr ++ (finalize v mem').2)
        else
          ((evalLoop v fuel o.rest mem').1, tr ++ (evalLoop v fuel o.rest mem').2)

/-- Whole-program run of main on a given input with the given verbosity
flag: outcome plus trace of prints. -/
def evalProg (v : Bool) (input : List Char) : Outcome × List Ev :=
  evalLoop v (input.length + 1) input []

/-- Token-level view of the evaluator: a lexeme after classification and
numeric parsing — a number carrying its parsed value, or an operator
carrying its text. -/
inductive Tok where
  | num : ℚ → Tok
  | op : List Char → Tok
  deriving DecidableEq, Repr

/-- One evaluator step on a classified token, exactly the stack logic of
main (src/postfix.cpp lines 190, 201-222): numbers are pushed; an
operator pops n2, then n1 (InvalidInput when the stack is empty at
either pop), and pushes the combined result. -/
def stepTok (mem : List ℚ) : Tok → Except EvalErr (List ℚ)
  | .num q => .ok (q :: mem)
  | .op tok =>
    match popBack mem with
    | none => .error .invalidInput
    | some (n2, m1) =>
      match popBack m1 with
      | none => .error .invalidInput
      | some (n1, m2) =>
        match combineOp tok n1 n2 with
        | .error e => .error e
        | .ok res => .ok (res :: m2)

/-- Running the evaluator over a list of classified tokens. -/
def runToks : List Tok → List ℚ → Except EvalErr (List ℚ)
  | [], mem => .ok mem
  | t :: ts, mem =>
    match stepTok mem t with
    | .error e => .error e
    | .ok mem' => runToks ts mem'

/-- Arithmetic expressions, the specification-side meaning of a
well-formed postfix token sequence. -/
inductive Expr where
  | lit : ℚ → Expr
  | add : Expr → Expr → Expr
  | sub : Expr → Expr → Expr
  | mul : Expr → Expr → Expr
  | div : Expr → Expr → Expr
  deriving DecidableEq, Repr

/-- Mathematical value of an expression. -/
def Expr.evalE : Expr → ℚ
  | .lit q => q
  | .add l r => l.evalE + r.evalE
  | .sub l r => l.evalE - r.evalE
  | .mul l r => l.evalE * r.evalE
  | .div l r => l.evalE / r.evalE

/-- No division node has a zero right operand. -/
def Expr.noDivZero : Expr → Bool
  | .lit _ => true
  | .add l r => l.noDivZero && r.noDivZero
  | .sub l r => l.noDivZero && r.noDivZero
  | .mul l r => l.noDivZero && r.noDivZero
  | .div l r => l.noDivZero && r.noDivZero && decide (r.evalE ≠ 0)

/-- The postfix (RPN) token sequence of an expression: operands first,
operator last. -/
def Expr.toRPN : Expr → List Tok
  | .lit q => [.num q]
  | .add l r => l.toRPN ++ r.toRPN ++ [.op ['+']]
  | .sub l r => l.toRPN ++ r.toRPN ++ [.op ['-']]
  | .mul l r => l.toRPN ++ r.toRPN ++ [.op ['*']]
  | .div l r => l.toRPN ++ r.toRPN ++ [.op ['/']]

/-- The remaining input after the tokenizer loop is never longer than the
input: the loop only consumes characters, and pushback restores exactly
the character just read. -/
theorem tokLoop_rest_length (input : List Char) :
    ∀ str r v, (tokLoop input str r v).rest.length ≤ input.length := by
  induction input with
  | nil => intro str r v; simp [tokLoop]
  | cons c cs ih =>
    intro str r v
    simp only [tokLoop]
    split_ifs <;>
      first
      | exact le_trans (ih _ _ _) (Nat.le_succ _)
      | simp

/-- Unpacking a successful next_tok call in terms of the loop output. -/
theorem next_tok_ok_spec (input : List Char) (o : NTOut)
    (h : next_tok input = Except.ok o) :
    o.tok = (tokLoop input [] false false).tok ∧
    o.rest = (tokLoop input [] false false).rest ∧
    o.endOfInput = ((tokLoop input [] false false).gotEoi || (tokLoop input [] false false).hitEof) := by
  simp only [next_tok] at h
  split_ifs at h with hc
  cases h
  exact ⟨rfl, rfl, rfl⟩

/-- A successful next_tok call that does not report end of input consumed
at least one character of the stream: whatever the first character is,
the loop either consumes it, or sets end of input, or throws. -/
theorem next_tok_progress (input : List Char) (o : NTOut)
    (h : next_tok input = Except.ok o) (he : o.endOfInput = false) :
    o.rest.length < input.length := by
  obtain ⟨htok, hrest, heoi⟩ := next_tok_ok_spec input o h
  cases input with
  | nil =>
    rw [he] at heoi
    simp [tokLoop] at heoi
  | cons c cs =>
    by_cases h1 : c = ';'
    · subst h1
      rw [he] at heoi
      simp [tokLoop] at heoi
    · by_cases h2 : c = '-' ∨ c = '+'
      · have hstep : tokLoop (c :: cs) [] false false = tokLoop cs [c] false false := by
          rcases h2 with rfl | rfl <;> simp [tokLoop]
        rw [hstep] at hrest
        rw [hrest, List.length_cons]
        exact Nat.lt_succ_of_le (tokLoop_rest_length cs [c] false false)
      · by_cases h3 : c = '.'
        · subst h3
          have hstep : tokLoop ('.' :: cs) [] false false = tokLoop cs ['0', '.'] true false := by
            simp [tokLoop]
          rw [hstep] at hrest
          rw [hrest, List.length_cons]
          exact Nat.lt_succ_of_le (tokLoop_rest_length cs ['0', '.'] true false)
        · by_cases h4 : c = '*' ∨ c = '/'
          · have hstep : tokLoop (c :: cs) [] false false = ⟨[c], cs, false, false, false⟩ := by
              rcases h4 with rfl | rfl <;> simp [tokLoop]
            rw [hstep] at hrest
            rw [hrest, List.length_cons]
            exact Nat.lt_succ_self _
          · by_cases h5 : isSpaceChar c = true
            · have hstep : tokLoop (c :: cs) [] false false = tokLoop cs [] false false := by
                simp [tokLoop, h1, h2, h3, h4, h5]
              rw [hstep] at hrest
              rw [hrest, List.length_cons]
              exact Nat.lt_succ_of_le (tokLoop_rest_length cs [] false false)
            · by_cases h6 : isDigitChar c = true
              · have hstep : tokLoop (c :: cs) [] false false = tokLoop cs [c] false true := by
                  simp [tokLoop, h1, h2, h3, h4, h5, h6]
                rw [hstep] at hrest
                rw [hrest, List.length_cons]
                exact Nat.lt_succ_of_le (tokLoop_rest_length cs [c] false true)
              · have hstep : tokLoop (c :: cs) [] false false = ⟨[c], c :: cs, false, false, false⟩ := by
                  simp [tokLoop, h1, h2, h3, h4, h5, h6]
                have hop : isOpStr [c] = false := by
                  push_neg at h2 h4
                  simp [isOpStr, h2.1, h2.2, h4.1, h4.2]
                simp only [next_tok, hstep] at h
                simp [hop] at h

/-- Running the token machine over a concatenation: the second part runs
on the stack left by the first, unless the first part errors. -/
theorem runToks_append (xs ys : List Tok) (mem : List ℚ) :
    runToks (xs ++ ys) mem =
      match runToks xs mem with
      | .error e => .error e
      | .ok m => runToks ys m := by
  induction xs generalizing mem with
  | nil => simp [runToks]
  | cons t ts ih =>
    simp only [List.cons_append, runToks]
    cases stepTok mem t with
    | error e => rfl
    | ok m' => exact ih m'

/-- Compiler-style correctness of the stack machine: running the postfix
serialization of an expression with no zero divisor pushes exactly the
mathematical value of the expression onto the stack. -/
theorem runToks_toRPN (e : Expr) (h : e.noDivZero = true) :
    ∀ ts mem, runToks (e.toRPN ++ ts) mem = runToks ts (e.evalE :: mem) := by
  induction e with
  | lit q =>
    intro ts mem
    simp [Expr.toRPN, runToks, stepTok, Expr.evalE]
  | add l r ihl ihr =>
    intro ts mem
    simp only [Expr.noDivZero, Bool.and_eq_true] at h
    simp only [Expr.toRPN, List.append_assoc]
    rw [ihl h.1, ihr h.2]
    simp [runToks, stepTok, popBack, combineOp, opRes, Expr.evalE]
  | sub l r ihl ihr =>
    intro ts mem
    simp only [Expr.noDivZero, Bool.and_eq_true] at h
    simp only [Expr.toRPN, List.append_assoc]
    rw [ihl h.1, ihr h.2]
    simp [runToks, stepTok, popBack, combineOp, opRes, Expr.evalE]
  | mul l r ihl ihr =>
    intro ts mem
    simp only [Expr.noDivZero, Bool.and_eq_true] at h
    simp only [Expr.toRPN, List.append_assoc]
    rw [ihl h.1, ihr h.2]
    simp [runToks, stepTok, popBack, combineOp, opRes, Expr.evalE]
  | div l r ihl ihr =>
    intro ts mem
    simp only [Expr.noDivZero, Bool.and_eq_true, decide_eq_true_eq] at h
    simp only [Expr.toRPN, List.append_assoc]
    rw [ihl h.1.1, ihr h.1.2]
    simp [runToks, stepTok, popBack, combineOp, opRes, Expr.evalE, h.2]

/-- The outcome component of the final-result block does not depend on
the verbosity flag. -/
theorem finalize_fst (v : Bool) (mem : List ℚ) :
    (finalize v mem).1 = (finalize false mem).1 := by
  cases mem <;> simp [finalize]

/-- Forget the trace parts of a step result, keeping error kind and
stack. -/
def stripE (x : Except (EvalErr × List Ev) (List ℚ × List Ev)) :
    Except EvalErr (List ℚ) :=
  match x with
  | .error (e, _) => .error e
  | .ok (m, _) => .ok m

/-- The error kind and the resulting stack of one loop iteration do not
depend on the verbosity flag. -/
theorem procTok_stripE (v : Bool) (tok : List Char) (isOp eoi : Bool) (mem : List ℚ) :
    stripE (procTok v tok isOp eoi mem) = stripE (procTok false tok isOp eoi mem) := by
  by_cases h1 : eoi = true ∧ tok = []
  · simp [procTok, h1, stripE]
  · by_cases h2 : isOp = true
    · cases hp : popBack mem with
      | none => simp [procTok, h1, h2, hp, stripE]
      | some p =>
        obtain ⟨n2, m1⟩ := p
        cases hq : popBack m1 with
        | none => simp [procTok, h1, h2, hp, hq, stripE]
        | some q =>
          obtain ⟨n1, m2⟩ := q
          cases hc : combineOp tok n1 n2 with
          | error e => simp [procTok, h1, h2, hp, hq, hc, stripE]
          | ok res => simp [procTok, h1, h2, hp, hq, hc, stripE]
    · cases hn : parseNum tok with
      | none => simp [procTok, h1, h2, hn, stripE]
      | some n => simp [procTok, h1, h2, hn, stripE]

/-- The outcome of the whole evaluation loop does not depend on the
verbosity flag, at every fuel level. -/
theorem evalLoop_fst (v : Bool) :
    ∀ fuel input mem, (evalLoop v fuel input mem).1 = (evalLoop false fuel input mem).1 := by
  intro fuel
  induction fuel with
  | zero => intro input mem; rfl
  | succ fuel ih =>
    intro input mem
    simp only [evalLoop]
    cases hnt : next_tok input with
    | error s => rfl
    | ok o =>
      have hstrip := procTok_stripE v o.tok o.isOp o.endOfInput mem
      cases hp : procTok v o.tok o.isOp o.endOfInput mem with
      | error p =>
        obtain ⟨e, tr⟩ := p
        cases hq : procTok false o.tok o.isOp o.endOfInput mem with
        | error q =>
          obtain ⟨e', tr'⟩ := q
          rw [hp, hq] at hstrip
          simp only [stripE, Except.error.injEq] at hstrip
          subst hstrip
          simp [hp, hq]
        | ok q =>
          rw [hp, hq] at hstrip
          obtain ⟨m', tr'⟩ := q
          simp [stripE] at hstrip
      | ok p =>
        obtain ⟨mem', tr⟩ := p
        cases hq : procTok false o.tok o.isOp o.endOfInput mem with
        | error q =>
          obtain ⟨e', tr'⟩ := q
          rw [hp, hq] at hstrip
          simp [stripE] at hstrip
        | ok q =>
          obtain ⟨mem'', tr'⟩ := q
          rw [hp, hq] at hstrip
          simp only [stripE, Except.ok.injEq] at hstrip
          subst hstrip
          simp only [hp, hq]
          by_cases he : o.endOfInput = true
          · simp only [he, if_true]
            exact finalize_fst v mem'
          · simp only [he, if_false, Bool.false_eq_true]
            exact ih o.rest mem'

/-- The final-result block never yields the fuel sentinel. -/
theorem finalize_ne_fuel (v : Bool) (mem : List ℚ) :
    (finalize v mem).1 ≠ Outcome.outOfFuel := by
  cases mem <;> simp [finalize]

/-- Any fuel exceeding the input length is enough: the loop never hits
the fuel sentinel, because each iteration that continues has consumed at
least one character. -/
theorem evalLoop_fuel_enough (v : Bool) :
    ∀ fuel input mem, input.length < fuel →
      (evalLoop v fuel input mem).1 ≠ Outcome.outOfFuel := by
  intro fuel
  induction fuel with
  | zero => intro input mem h; exact absurd h (Nat.not_lt_zero _)
  | succ fuel ih =>
    intro input mem h
    simp only [evalLoop]
    cases hnt : next_tok input with
    | error s => simp
    | ok o =>
      cases hp : procTok v o.tok o.isOp o.endOfInput mem with
      | error p =>
        obtain ⟨e, tr⟩ := p
        simp [hp]
      | ok p =>
        obtain ⟨mem', tr⟩ := p
        simp only [hp]
        by_cases he : o.endOfInput = true
        · simp only [he, if_true]
          exact finalize_ne_fuel v mem'
        · have hlt := next_tok_progress input o hnt (by simpa using he)
          simp only [he, if_false, Bool.false_eq_true]
          exact ih o.rest mem' (by omega)

/-- The fuel used by evalProg never runs out. -/
theorem evalProg_ne_fuel (v : Bool) (input : List Char) :
    (evalProg v input).1 ≠ Outcome.outOfFuel :=
  evalLoop_fuel_enough v (input.length + 1) input [] (Nat.lt_succ_self _)

/-- The classic RPN example 5 ((1+2)*4) + 3 - as an expression tree. -/
def exC1 : Expr :=
  Expr.sub (Expr.add (Expr.lit 5) (Expr.mul (Expr.add (Expr.lit 1) (Expr.lit 2)) (Expr.lit 4))) (Expr.lit 3)

/-- Claim C1: for every well-formed postfix expression with balanced
operands and operators (modelled as the postfix serialization of an
expression tree with no zero divisor), evaluation returns the
mathematically correct result and the value stack is empty after the
final pop; in particular the whole program maps the input
5 1 2 + 4 * + 3 -; to the result 14 with an empty leftover stack. -/
theorem claim_c1 :
    (∀ e : Expr, e.noDivZero = true →
      runToks e.toRPN [] = Except.ok [e.evalE] ∧
      (finalize false [e.evalE]).1 = Outcome.ok e.evalE []) ∧
    (evalProg false ("5 1 2 + 4 * + 3 -;").toList).1 = Outcome.ok 14 [] := by
  constructor
  · intro e h
    constructor
    · have := runToks_toRPN e h [] []
      simpa [runToks] using this
    · simp [finalize]
  · decide!

/-- Witness for C1: the claim applied to the concrete expression tree of
the classic RPN example, whose value is 14. -/
theorem claim_c1_witness :
    exC1.noDivZero = true ∧
    (runToks exC1.toRPN [] = Except.ok [exC1.evalE] ∧
      (finalize false [exC1.evalE]).1 = Outcome.ok exC1.evalE []) :=
  ⟨by decide!, claim_c1.1 exC1 (by decide!)⟩

/-- Claim C2: a division whose right operand n2 (the top of the stack)
is exactly zero fails with DivByZero carrying the dividend n1 as its
payload; in particular the whole program maps 1 0 /; to a DivByZero
error carrying dividend 1. -/
theorem claim_c2 :
    (∀ (n1 : ℚ) (mem : List ℚ),
      stepTok ((0 : ℚ) :: n1 :: mem) (Tok.op ['/']) = Except.error (EvalErr.divByZero n1)) ∧
    (evalProg false ("1 0 /;").toList).1 = Outcome.err (EvalErr.divByZero 1) := by
  constructor
  · intro n1 mem
    simp [stepTok, popBack, combineOp]
  · decide!

/-- Claim C3: an operator pops n2 (the right operand, top of stack) and
then n1, and evaluation fails with InvalidInput when the stack is empty
at either pop; the subtraction conjunct records the pop order (the top
of the stack becomes the right operand); in particular the whole
program maps +; to an InvalidInput error. -/
theorem claim_c3 :
    (∀ tok : List Char, stepTok [] (Tok.op tok) = Except.error EvalErr.invalidInput) ∧
    (∀ (tok : List Char) (n2 : ℚ), stepTok [n2] (Tok.op tok) = Except.error EvalErr.invalidInput) ∧
    (∀ (n1 n2 : ℚ) (mem : List ℚ),
      stepTok (n2 :: n1 :: mem) (Tok.op ['-']) = Except.ok ((n1 - n2) :: mem)) ∧
    (evalProg false ("+;").toList).1 = Outcome.err EvalErr.invalidInput := by
  refine ⟨?_, ?_, ?_, ?_⟩
  · intro tok; simp [stepTok, popBack]
  · intro tok n2; simp [stepTok, popBack]
  · intro n1 n2 mem
    have hne : (['-'] : List Char) ≠ ['/'] := by decide
    simp [stepTok, popBack, combineOp, opRes, hne]
  · decide!

/-- Claim C4: when values remain on the stack after the final result
pop, the program still produces the already-computed top-of-stack value
as the answer and reports the leftover stack as a non-fatal warning; in
particular 3 4 5 +; produces 9 with leftover [3] and the warning event
in the print trace. -/
theorem claim_c4 :
    (∀ (v : Bool) (r : ℚ) (rest : List ℚ), rest ≠ [] →
      (finalize v (r :: rest)).1 = Outcome.ok r rest ∧
      Ev.warnLeftover ∈ (finalize v (r :: rest)).2) ∧
    ((evalProg false ("3 4 5 +;").toList).1 = Outcome.ok 9 [3] ∧
      Ev.warnLeftover ∈ (evalProg false ("3 4 5 +;").toList).2) := by
  constructor
  · intro v r rest hne
    constructor
    · simp [finalize]
    · simp [finalize, hne]
  · constructor
    · decide!
    · decide!

/-- Witness for C4: the claim applied to the concrete stack 9 :: [3]
left by the input 3 4 5 +;. -/
theorem claim_c4_witness :
    ([(3 : ℚ)] ≠ ([] : List ℚ)) ∧
    ((finalize false ((9 : ℚ) :: [(3 : ℚ)])).1 = Outcome.ok 9 [3] ∧
      Ev.warnLeftover ∈ (finalize false ((9 : ℚ) :: [(3 : ℚ)])).2) :=
  ⟨by decide, claim_c4.1 false 9 [3] (by decide)⟩

/-- Claim C5, what the code actually does: when the stack is empty at
the final result pop (completely empty input, for example a bare
terminator or an empty stream), main reaches the unchecked back() call
on the empty list — undefined behaviour — and no InvalidInput error is
raised, contrary to the claim. -/
theorem claim_c5 :
    (∀ v : Bool, (finalize v []).1 = Outcome.emptyFinalPop) ∧
    (evalProg false (";").toList).1 = Outcome.emptyFinalPop ∧
    (evalProg false ("").toList).1 = Outcome.emptyFinalPop := by
  refine ⟨?_, ?_, ?_⟩
  · intro v; simp [finalize]
  · decide!
  · decide!

/-- Claim C6: a sign character is consumed into the current lexeme only
as its very first character; once any text has been accumulated a
sign is pushed back and ends the lexeme; and a lone minus followed
immediately by the terminator is classified as an operator lexeme
(isOp true, no invalid-lexeme error). -/
theorem claim_c6 :
    (∀ (c : Char) (cs str : List Char) (r v : Bool), str ≠ [] → (c = '-' ∨ c = '+') →
      tokLoop (c :: cs) str r v = ⟨str, c :: cs, false, false, v⟩) ∧
    (∀ (c : Char) (cs : List Char) (r v : Bool), (c = '-' ∨ c = '+') →
      tokLoop (c :: cs) [] r v = tokLoop cs [c] r v) ∧
    (∀ cs : List Char, next_tok ('-' :: ';' :: cs) = Except.ok ⟨['-'], cs, true, true⟩) := by
  refine ⟨?_, ?_, ?_⟩
  · intro c cs str r v hne hc
    rcases hc with rfl | rfl <;> simp [tokLoop, hne]
  · intro c cs r v hc
    rcases hc with rfl | rfl <;> simp [tokLoop]
  · intro cs
    rfl

/-- Witness for C6: a minus arriving while the text 5 is accumulated is
pushed back and ends the lexeme, leaving the flags untouched. -/
theorem claim_c6_witness :
    (['5'] ≠ ([] : List Char)) ∧ ('-' = '-' ∨ '-' = '+') ∧
    tokLoop ('-' :: [';']) ['5'] false true = ⟨['5'], '-' :: [';'], false, false, true⟩ :=
  ⟨by decide, Or.inl rfl, claim_c6.1 '-' [';'] ['5'] false true (by decide) (Or.inl rfl)⟩

/-- Claim C7: a radix point seen with no radix point yet and an empty
accumulator inserts a leading zero digit before the point; a second
radix point is pushed back and ends the lexeme; tokenizing .5 yields
the number lexeme 0.5, whose text denotes one half. -/
theorem claim_c7 :
    (∀ (cs : List Char) (v : Bool), tokLoop ('.' :: cs) [] false v = tokLoop cs ['0', '.'] true false) ∧
    (∀ (cs str : List Char) (v : Bool), tokLoop ('.' :: cs) str true v = ⟨str, '.' :: cs, false, false, v⟩) ∧
    next_tok (".5;").toList = Except.ok ⟨['0', '.', '5'], [], false, true⟩ ∧
    parseNum ['0', '.', '5'] = some ((1 : ℚ) / 2) := by
  refine ⟨?_, ?_, ?_, ?_⟩
  · intro cs v; simp [tokLoop]
  · intro cs str v; simp [tokLoop]
  · rfl
  · decide!

/-- Claim C8: a character that is not the terminator, a sign, a radix
point, a star or slash operator, whitespace, or a digit is appended to
the accumulated text, pushed back, and the lexeme fails classification
with the offending text; in particular the whole program maps
3 4 @ +; to an InvalidExpression error whose text contains the at
sign. -/
theorem claim_c8 :
    (∀ (c : Char) (cs str : List Char) (r v : Bool),
      c ≠ ';' → ¬(c = '-' ∨ c = '+') → c ≠ '.' → ¬(c = '*' ∨ c = '/') →
      isSpaceChar c = false → isDigitChar c = false →
      tokLoop (c :: cs) str r v = ⟨str ++ [c], c :: cs, false, false, false⟩) ∧
    (evalProg false ("3 4 @ +;").toList).1 = Outcome.invalidExpr ['@'] ∧
    '@' ∈ (['@'] : List Char) := by
  refine ⟨?_, ?_, ?_⟩
  · intro c cs str r v h1 h2 h3 h4 h5 h6
    simp [tokLoop, h1, h2, h3, h4, h5, h6]
  · decide!
  · decide

/-- Witness for C8: the claim applied to the at sign with an empty
accumulator. -/
theorem claim_c8_witness :
    ('@' ≠ ';') ∧ (¬('@' = '-' ∨ '@' = '+')) ∧ ('@' ≠ '.') ∧ (¬('@' = '*' ∨ '@' = '/')) ∧
    isSpaceChar '@' = false ∧ isDigitChar '@' = false ∧
    tokLoop ('@' :: []) [] false false = ⟨['@'], ['@'], false, false, false⟩ :=
  ⟨by decide, by decide, by decide, by decide, by decide, by decide,
   claim_c8.1 '@' [] [] false false (by decide) (by decide) (by decide) (by decide)
     (by decide) (by decide)⟩

/-- Claim C9: for every input character stream, the outcome of the run
(the final value, the leftover stack, and any error) is the same with
verbose tracing enabled as with it disabled; the flag only changes the
print trace. -/
theorem claim_c9 : ∀ input : List Char, (evalProg true input).1 = (evalProg false input).1 :=
  fun input => evalLoop_fst true (input.length + 1) input []

/-- Claim C10: operator application is not atomic on error: when the
stack holds exactly one value, the first pop (for n2) succeeds and
leaves the stack empty, and the InvalidInput underflow is only then
raised at the second pop, so at that moment the stack is empty rather
than unchanged. -/
theorem claim_c10 :
    ∀ (x : ℚ) (tok : List Char),
      popBack [x] = some (x, []) ∧ stepTok [x] (Tok.op tok) = Except.error EvalErr.invalidInput := by
  intro x tok
  constructor
  · rfl
  · simp [stepTok, popBack]
